import Mathlib

/-!
Verification of the kaggle-rfcx sound-event-detection pipeline.

The development embeds the label-building and windowing logic of the dataset
layer (`src/datasets/mixup.py`, `src/datasets/sequential.py`,
`src/datasets/additional_label.py`) and the segment-to-frame upsampling head of
the model (`src/models/effcientnet.py`) as executable Lean definitions over
exact rationals, and proves the specified properties about them.

Python machine floats are modelled by `ℚ`; Python's `int(...)` conversion
(truncation toward zero) is modelled by `pyInt`; numpy slice assignment with
possibly negative or out-of-range bounds is modelled by `sliceIdx`/`inSlice`.
-/

namespace RFCX

/-! ## Python primitives -/

/-- Python `int(q)` on a real quantity: truncation toward zero.
For a rational in lowest terms this is `num.tdiv den`. -/
def pyInt (q : ℚ) : ℤ := q.num.tdiv (q.den : ℤ)

/-- Floor division as the spec's words describe the frame-index computation
(`floor((t - offset)/seconds_per_frame)`).  Kept separate from `pyInt` so the
two can be compared. -/
def specFloor (q : ℚ) : ℤ := ⌊q⌋

theorem pyInt_eq_floor_of_nonneg (q : ℚ) (h : 0 ≤ q) : pyInt q = ⌊q⌋ := by
  unfold pyInt
  rw [Rat.floor_def]
  exact Int.tdiv_eq_ediv (Rat.num_nonneg.mpr h) (Int.natCast_nonneg _)

/-! ## Segment-to-frame upsampling (attention head, C1)

`interpolate` and `pad_framewise_output` live in `src/models/utils.py`, which
is not part of the provided sources; they are modelled from the spec.  The
ratio computation and their composition are taken from
`TimmEfficientNetSED.forward` (src/models/effcientnet.py, lines 56–64). -/

/-- Modelled from the spec: `interpolate` (missing `src/models/utils.py`):
"repeat each segment's value `r` times along time to produce a provisional
frame sequence". -/
def interpolate (xs : List ℚ) (ratio : ℕ) : List ℚ :=
  xs.flatMap (List.replicate ratio)

/-- Modelled from the spec: `pad_framewise_output` (missing
`src/models/utils.py`): "right-pad by replicating the last frame's value until
the sequence reaches `frames_num`". -/
def pad_framewise_output (xs : List ℚ) (frames_num : ℕ) : List ℚ :=
  xs ++ List.replicate (frames_num - xs.length) (xs.getLastD 0)

/-- `TimmEfficientNetSED.forward`: `interpolate_ratio = frames_num //
segment_count`, then `interpolate` followed by `pad_framewise_output`
(src/models/effcientnet.py lines 56–64). -/
def segmentsToFrames (xs : List ℚ) (frames_num : ℕ) : List ℚ :=
  pad_framewise_output (interpolate xs (frames_num / xs.length)) frames_num

theorem interpolate_length (xs : List ℚ) (r : ℕ) :
    (interpolate xs r).length = xs.length * r := by
  induction xs with
  | nil => simp [interpolate]
  | cons a t ih =>
      simp only [interpolate, List.flatMap_cons, List.length_append,
        List.length_replicate, List.length_cons] at *
      rw [ih]; ring

theorem interpolate_getD (xs : List ℚ) (r : ℕ) (hr : 0 < r) (f : ℕ)
    (hf : f < xs.length * r) :
    (interpolate xs r).getD f 0 = xs.getD (f / r) 0 := by
  induction xs generalizing f with
  | nil => simp at hf
  | cons a t ih =>
      simp only [interpolate, List.flatMap_cons]
      by_cases hfr : f < r
      · rw [List.getD_append _ _ _ _ (by simpa using hfr)]
        have h0 : f / r = 0 := Nat.div_eq_of_lt hfr
        simp [h0, List.getD, hfr]
      · push_neg at hfr
        rw [List.getD_append_right _ _ _ _ (by simpa using hfr)]
        simp only [List.length_replicate]
        have hlt : f - r < t.length * r := by
          simp only [List.length_cons] at hf
          have hexp : (t.length + 1) * r = t.length * r + r := by ring
          omega
        have := ih (f - r) hlt
        simp only [interpolate] at this
        rw [this]
        have hdiv : f / r = (f - r) / r + 1 := by
          rw [Nat.div_eq_sub_div hr hfr]
        simp [hdiv, List.getD]

theorem interpolate_getLastD (xs : List ℚ) (r : ℕ) (hr : 0 < r)
    (hne : xs ≠ []) :
    (interpolate xs r).getLastD 0 = xs.getLastD 0 := by
  induction xs with
  | nil => simp at hne
  | cons a t ih =>
      cases t with
      | nil =>
          simp only [interpolate, List.flatMap_cons, List.flatMap_nil,
            List.append_nil]
          rw [List.getLastD_eq_getLast?, List.getLast?_replicate]
          simp [Nat.pos_iff_ne_zero.mp hr]
      | cons b t2 =>
          have hpos : 0 < (interpolate (b :: t2) r).length := by
            rw [interpolate_length]
            exact Nat.mul_pos (by simp) hr
          have hnil : interpolate (b :: t2) r ≠ [] :=
            List.ne_nil_of_length_pos hpos
          simp only [interpolate, List.flatMap_cons] at hnil ⊢
          rw [List.getLastD_eq_getLast?,
            List.getLast?_append_of_ne_nil _ hnil,
            ← List.getLastD_eq_getLast?]
          have hstep := ih (by simp)
          simp only [interpolate, List.flatMap_cons] at hstep
          rw [hstep]
          simp only [List.getLastD_cons]

theorem getLastD_eq_getD_pred (xs : List ℚ) :
    xs.getLastD 0 = xs.getD (xs.length - 1) 0 := by
  rw [List.getLastD_eq_getLast?, List.getLast?_eq_getElem?,
    ← List.getD_eq_getElem?_getD]

/-- C1: for every segment sequence `xs` (of length `segment_count > 0`) and
every `frames_num ≥ segment_count`, the segment-to-frame upsample of the
attention head computes `r = frames_num / segment_count` by floor division,
repeats each segment value `r` consecutive times, then right-pads with the
last frame's value so that the output length is exactly `frames_num`: frame
`f < segment_count * r` carries segment `f / r`, and every frame from
`segment_count * r` up to `frames_num` carries the last segment's value. -/
theorem c1_segment_to_frame_upsample (xs : List ℚ) (fn : ℕ)
    (hne : xs ≠ []) (hle : xs.length ≤ fn) :
    (segmentsToFrames xs fn).length = fn ∧
    (∀ f, f < xs.length * (fn / xs.length) →
      (segmentsToFrames xs fn).getD f 0 = xs.getD (f / (fn / xs.length)) 0) ∧
    (∀ f, xs.length * (fn / xs.length) ≤ f → f < fn →
      (segmentsToFrames xs fn).getD f 0 = xs.getD (xs.length - 1) 0) := by
  have hlpos : 0 < xs.length := List.length_pos.mpr hne
  have hr : 0 < fn / xs.length := (Nat.one_le_div_iff hlpos).mpr hle
  have hil : (interpolate xs (fn / xs.length)).length
      = xs.length * (fn / xs.length) := interpolate_length _ _
  have hml : xs.length * (fn / xs.length) ≤ fn := by
    rw [Nat.mul_comm]
    exact Nat.div_mul_le_self fn xs.length
  refine ⟨?_, ?_, ?_⟩
  · simp only [segmentsToFrames, pad_framewise_output, List.length_append,
      List.length_replicate, hil]
    omega
  · intro f hf
    simp only [segmentsToFrames, pad_framewise_output]
    rw [List.getD_append _ _ _ _ (by rw [hil]; exact hf)]
    exact interpolate_getD xs _ hr f (by rw [← hil]; rw [hil]; exact hf)
  · intro f hf1 hf2
    simp only [segmentsToFrames, pad_framewise_output]
    rw [List.getD_append_right _ _ _ _ (by rw [hil]; exact hf1)]
    rw [List.getD_eq_getElem?_getD, List.getElem?_replicate]
    rw [if_pos (by rw [hil]; omega)]
    simp only [Option.getD_some]
    rw [interpolate_getLastD xs _ hr hne]
    exact getLastD_eq_getD_pred xs

/-- Witness for C1 at `segment_count = 5`, `frames_num = 17` (so `r = 3`):
output length 17, frames `[0,3)` equal segment 0, `[3,6)` equal segment 1,
and the last two frames equal segment 4's value. -/
theorem c1_segment_to_frame_upsample_witness :
    (segmentsToFrames [10, 11, 12, 13, 14] 17).length = 17 ∧
    (segmentsToFrames [10, 11, 12, 13, 14] 17).getD 0 0 = 10 ∧
    (segmentsToFrames [10, 11, 12, 13, 14] 17).getD 2 0 = 10 ∧
    (segmentsToFrames [10, 11, 12, 13, 14] 17).getD 3 0 = 11 ∧
    (segmentsToFrames [10, 11, 12, 13, 14] 17).getD 5 0 = 11 ∧
    (segmentsToFrames [10, 11, 12, 13, 14] 17).getD 15 0 = 14 ∧
    (segmentsToFrames [10, 11, 12, 13, 14] 17).getD 16 0 = 14 := by
  have h := c1_segment_to_frame_upsample [10, 11, 12, 13, 14] 17
    (by decide) (by decide)
  refine ⟨h.1, ?_, ?_, ?_, ?_, ?_, ?_⟩
  · rw [h.2.1 0 (by decide)]; decide
  · rw [h.2.1 2 (by decide)]; decide
  · rw [h.2.1 3 (by decide)]; decide
  · rw [h.2.1 5 (by decide)]; decide
  · rw [h.2.2 15 (by decide) (by decide)]; decide
  · rw [h.2.2 16 (by decide) (by decide)]; decide

/-! ## Events, windows and label tensors

An annotated event row of the `tp` table.  Recording ids are numbered.
Label tensors are modelled as total functions: `weak : ℕ → ℚ` (class index to
value) and `strong : ℕ → ℕ → ℚ` (frame index, class index to value); cells
outside the allocated shape are never written by the model, mirroring numpy's
silent truncation of slice bounds. -/

structure Event where
  recording_id : ℕ
  species_id : ℕ
  t_min : ℚ
  t_max : ℚ
deriving DecidableEq

/-- The overlap filter used by every `__getitem__`:
`recording_id == flac_id & t_min < offset + duration & t_max > offset`. -/
def overlapsWindow (e : Event) (rec : ℕ) (offset duration : ℚ) : Prop :=
  e.recording_id = rec ∧ e.t_min < offset + duration ∧ offset < e.t_max

instance (e : Event) (rec : ℕ) (offset duration : ℚ) :
    Decidable (overlapsWindow e rec offset duration) := by
  unfold overlapsWindow; infer_instance

/-- `self.tp.query(query_string)`: the rows overlapping the window. -/
def queryEvents (tp : List Event) (rec : ℕ) (offset duration : ℚ) :
    List Event :=
  tp.filter (fun e => decide (overlapsWindow e rec offset duration))

/-- Python slice-bound normalization on an axis of length `n` (step 1):
a negative bound counts from the end, then the bound is clamped to `[0, n]`. -/
def sliceIdx (n : ℕ) (i : ℤ) : ℕ :=
  if i < 0 then ((n : ℤ) + i).toNat else min i.toNat n

/-- Frame `f` lies in the numpy slice `[s:e]` of an axis of length `n`. -/
def inSlice (n : ℕ) (s e : ℤ) (f : ℕ) : Prop :=
  sliceIdx n s ≤ f ∧ f < sliceIdx n e

instance (n : ℕ) (s e : ℤ) (f : ℕ) : Decidable (inSlice n s e f) := by
  unfold inSlice; infer_instance

/-- `start_index = int((t_min - offset) / seconds_per_frame)` — Python `int`
truncates toward zero. -/
def startIndex (e : Event) (offset spf : ℚ) : ℤ :=
  pyInt ((e.t_min - offset) / spf)

/-- `end_index = int((t_max - offset) / seconds_per_frame)`. -/
def endIndex (e : Event) (offset spf : ℚ) : ℤ :=
  pyInt ((e.t_max - offset) / spf)

/-- The start frame index as the spec's words state it:
`floor((t_min - offset)/seconds_per_frame)`.  For comparison with
`startIndex`. -/
def startIndexSpec (e : Event) (offset spf : ℚ) : ℤ :=
  specFloor ((e.t_min - offset) / spf)

/-- Event `e` writes cell `(f, c)` of the strong tensor:
the class column is its species and `f` lies in the event's frame slice. -/
def writesCell (e : Event) (offset spf : ℚ) (n : ℕ) (f c : ℕ) : Prop :=
  c = e.species_id ∧ inSlice n (startIndex e offset spf) (endIndex e offset spf) f

instance (e : Event) (offset spf : ℚ) (n : ℕ) (f c : ℕ) :
    Decidable (writesCell e offset spf n f c) := by
  unfold writesCell; infer_instance

/-- `strong_label[start_index:end_index, species_id] = v` for one event row. -/
def writeEvent (acc : ℕ → ℕ → ℚ) (e : Event) (offset spf : ℚ) (n : ℕ)
    (v : ℚ) : ℕ → ℕ → ℚ :=
  fun f c => if writesCell e offset spf n f c then v else acc f c

/-- The strong-label loop: iterate the overlapping rows, writing value `v`
into each row's frame slice and species column, into tensor `init`. -/
def strongFill (evs : List Event) (offset spf : ℚ) (n : ℕ) (v : ℚ)
    (init : ℕ → ℕ → ℚ) : ℕ → ℕ → ℚ :=
  evs.foldl (fun acc e => writeEvent acc e offset spf n v) init

/-- Strong label of the no-mixup paths: all-zero tensor then value `1.0`. -/
def strongLabel (evs : List Event) (offset spf : ℚ) (n : ℕ) : ℕ → ℕ → ℚ :=
  strongFill evs offset spf n 1 (fun _ _ => 0)

/-- `label[s] = v` for one species id. -/
def setWeak (v : ℚ) (acc : ℕ → ℚ) (s : ℕ) : ℕ → ℚ :=
  fun c => if c = s then v else acc c

/-- The weak-label loop: `for species_id in events["species_id"].unique():
label[species_id] = v` (iterating all rows writes the same function as
iterating the distinct values, since every write stores the same `v`). -/
def weakFill (species : List ℕ) (v : ℚ) (init : ℕ → ℚ) : ℕ → ℚ :=
  species.foldl (setWeak v) init

/-- Weak label of the no-mixup paths: all-zero vector then value `1.0`. -/
def weakLabel (evs : List Event) : ℕ → ℚ :=
  weakFill (evs.map Event.species_id) 1 (fun _ => 0)

theorem weakFill_apply (l : List ℕ) (v : ℚ) (init : ℕ → ℚ) (c : ℕ) :
    weakFill l v init c = if c ∈ l then v else init c := by
  induction l generalizing init with
  | nil => simp [weakFill]
  | cons s t ih =>
      simp only [weakFill, List.foldl_cons] at *
      rw [ih]
      by_cases hct : c ∈ t
      · simp [hct]
      · by_cases hcs : c = s <;> simp [hct, hcs, setWeak]

theorem strongFill_apply (evs : List Event) (offset spf : ℚ) (n : ℕ) (v : ℚ)
    (init : ℕ → ℕ → ℚ) (f c : ℕ) :
    strongFill evs offset spf n v init f c
      = if ∃ e ∈ evs, writesCell e offset spf n f c then v else init f c := by
  induction evs generalizing init with
  | nil => simp [strongFill]
  | cons e t ih =>
      simp only [strongFill, List.foldl_cons] at *
      rw [ih]
      by_cases het : ∃ x ∈ t, writesCell x offset spf n f c
      · simp [het]
      · by_cases he : writesCell e offset spf n f c <;>
          simp [het, he, writeEvent]

theorem inSlice_of_nonneg (n : ℕ) (s e : ℤ) (hs : 0 ≤ s) (he : 0 ≤ e)
    (f : ℕ) :
    inSlice n s e f ↔ (s ≤ (f : ℤ) ∧ (f : ℤ) < e ∧ f < n) := by
  simp only [inSlice, sliceIdx, if_neg (not_lt.mpr hs), if_neg (not_lt.mpr he)]
  omega

/-- C3: on the no-mixup, no-override path
(`SequentialValidationDataset.__getitem__`), a nonzero strong-label cell
`(f, c)` implies the weak label of class `c` is positive: both tensors are
filled from the same overlapping-event query. -/
theorem c3_strong_implies_weak (tp : List Event) (rec : ℕ)
    (offset duration spf : ℚ) (n f c : ℕ)
    (h : strongLabel (queryEvents tp rec offset duration) offset spf n f c ≠ 0) :
    0 < weakLabel (queryEvents tp rec offset duration) c := by
  rw [strongLabel, strongFill_apply] at h
  by_cases hex : ∃ e ∈ queryEvents tp rec offset duration,
      writesCell e offset spf n f c
  · obtain ⟨e, hmem, hw⟩ := hex
    rw [weakLabel, weakFill_apply, if_pos (List.mem_map.mpr ⟨e, hmem, hw.1.symm⟩)]
    norm_num
  · rw [if_neg hex] at h
    exact absurd rfl h

/-- Witness for C3: one event (species 3, interval `[1, 2]` s) in a 10-frame
window at offset 0, one second per frame; frame 1 of class 3 is strongly
labelled, hence the weak label of class 3 is positive. -/
theorem c3_strong_implies_weak_witness :
    0 < weakLabel (queryEvents [⟨0, 3, 1, 2⟩] 0 0 10) 3 := by
  apply c3_strong_implies_weak [⟨0, 3, 1, 2⟩] 0 0 10 1 10 1 3
  rw [strongLabel, strongFill_apply, if_pos]
  · norm_num
  · refine ⟨⟨0, 3, 1, 2⟩, ?_, rfl, ?_⟩
    · rw [queryEvents, List.mem_filter]
      refine ⟨by simp, ?_⟩
      rw [decide_eq_true_iff]
      exact ⟨rfl, by norm_num, by norm_num⟩
    · rw [inSlice_of_nonneg]
      · refine ⟨?_, ?_, by norm_num⟩
        · show startIndex ⟨0, 3, 1, 2⟩ 0 1 ≤ (1 : ℤ)
          rw [startIndex]
          norm_num [pyInt]
        · show ((1 : ℕ) : ℤ) < endIndex ⟨0, 3, 1, 2⟩ 0 1
          rw [endIndex]
          norm_num [pyInt]
      · rw [startIndex]; norm_num [pyInt]
      · rw [endIndex]; norm_num [pyInt]

/-- C2 counterexample: for the event `{t_min = 3/4, t_max = 2}` in a window at
`offset = 1` with `seconds_per_frame = 1/2`, the quotient
`(t_min - offset)/seconds_per_frame = -1/2` is negative; the code's Python
`int(...)` truncates it to `0`, while the claim's floor is `-1`. -/
theorem c2_floor_counterexample :
    startIndex ⟨0, 3, 3/4, 2⟩ 1 (1/2) = 0 ∧
    startIndexSpec ⟨0, 3, 3/4, 2⟩ 1 (1/2) = -1 ∧
    (0 : ℤ) ≠ -1 := by
  refine ⟨?_, ?_, by decide⟩
  · rw [startIndex]
    norm_num [pyInt]
    decide
  · rw [startIndexSpec, specFloor]
    norm_num

/-- C2 (amended): the frame range of a strong-label write is computed with
Python `int(...)`, i.e. truncation toward zero, of
`(t_min - offset)/seconds_per_frame` and `(t_max - offset)/seconds_per_frame`.
When both quantities are nonnegative this coincides with the claimed floor,
and the assignment then sets exactly the cells `(f, c)` with
`c = species`, `start ≤ f < end` and `f < frame_count` (numpy clamps the slice
to the axis). -/
theorem c2_strong_label_frame_range (e : Event) (offset spf : ℚ) (n : ℕ)
    (v : ℚ) (hv : v ≠ 0) (hspf : 0 < spf)
    (hmin : offset ≤ e.t_min) (hmax : offset ≤ e.t_max) :
    startIndex e offset spf = ⌊(e.t_min - offset) / spf⌋ ∧
    endIndex e offset spf = ⌊(e.t_max - offset) / spf⌋ ∧
    (∀ f c, writeEvent (fun _ _ => 0) e offset spf n v f c ≠ 0 ↔
      (c = e.species_id ∧ startIndex e offset spf ≤ (f : ℤ) ∧
        (f : ℤ) < endIndex e offset spf ∧ f < n)) := by
  have hqmin : (0 : ℚ) ≤ (e.t_min - offset) / spf :=
    div_nonneg (by linarith) (le_of_lt hspf)
  have hqmax : (0 : ℚ) ≤ (e.t_max - offset) / spf :=
    div_nonneg (by linarith) (le_of_lt hspf)
  have hs : startIndex e offset spf = ⌊(e.t_min - offset) / spf⌋ :=
    pyInt_eq_floor_of_nonneg _ hqmin
  have he : endIndex e offset spf = ⌊(e.t_max - offset) / spf⌋ :=
    pyInt_eq_floor_of_nonneg _ hqmax
  refine ⟨hs, he, fun f c => ?_⟩
  have hs0 : 0 ≤ startIndex e offset spf := by
    rw [hs]; exact Int.floor_nonneg.mpr hqmin
  have he0 : 0 ≤ endIndex e offset spf := by
    rw [he]; exact Int.floor_nonneg.mpr hqmax
  rw [writeEvent]
  by_cases hw : writesCell e offset spf n f c
  · rw [if_pos hw]
    simp only [hv, ne_eq, not_false_iff, true_iff]
    obtain ⟨hc, hin⟩ := hw
    have := (inSlice_of_nonneg n _ _ hs0 he0 f).mp hin
    exact ⟨hc, this.1, this.2.1, this.2.2⟩
  · rw [if_neg hw]
    simp only [ne_eq, not_true, false_iff]
    push_neg
    intro hc hle hlt
    by_contra hfn
    push_neg at hfn
    exact hw ⟨hc, (inSlice_of_nonneg n _ _ hs0 he0 f).mpr ⟨hle, hlt, hfn⟩⟩

/-- Witness for C2 (amended) at the event `{t_min = 1, t_max = 2}`, offset 0,
one second per frame: the code's start index equals the floor. -/
theorem c2_strong_label_frame_range_witness :
    startIndex ⟨0, 3, 1, 2⟩ 0 1 = ⌊((1 : ℚ) - 0) / 1⌋ :=
  (c2_strong_label_frame_range ⟨0, 3, 1, 2⟩ 0 1 10 1 (by norm_num)
    (by norm_num) (by norm_num) (by norm_num)).1

/-! ## Spectrogram normalization (C4)

`normalize_melspec` (identical in all three dataset files).  The standard
deviation `X.std()` is a machine square root and enters the computation only
through the positive divisor `std + eps`; it is therefore taken as a
nonnegative parameter.  The clip step `V[V < norm_min] = norm_min;
V[V > norm_max] = norm_max` is a no-op because `norm_min`/`norm_max` are the
actual extrema of `Xstd`, and `astype(np.uint8)` truncates the nonnegative
scaled values, so it is modelled by the integer floor. -/

def listMin : List ℚ → ℚ
  | [] => 0
  | a :: t => t.foldl min a

def listMax : List ℚ → ℚ
  | [] => 0
  | a :: t => t.foldl max a

/-- `Xstd = (X - X.mean()) / (X.std() + eps)`. -/
def stdzd (X : List ℚ) (std : ℚ) : List ℚ :=
  (X.map (fun v => v - X.sum / X.length)).map (fun v => v / (std + 1/1000000))

/-- `normalize_melspec`: standardize, then either rescale the dynamic range to
`[0, 255]` and truncate to integers, or emit an all-zero array when the range
has collapsed (`norm_max - norm_min ≤ eps`). -/
def normalize_melspec (X : List ℚ) (std : ℚ) : List ℕ :=
  let Xstd := stdzd X std
  let nmin := listMin Xstd
  let nmax := listMax Xstd
  if nmax - nmin > 1/1000000 then
    Xstd.map (fun v => (⌊255 * (v - nmin) / (nmax - nmin)⌋).toNat)
  else
    Xstd.map (fun _ => 0)

theorem map_zero_eq_replicate (l : List ℚ) :
    (l.map fun _ => (0 : ℕ)) = List.replicate l.length 0 := by
  induction l with
  | nil => simp
  | cons a t ih => simp [ih, List.replicate_succ]

theorem sum_of_constant (X : List ℚ) (c : ℚ) (h : ∀ v ∈ X, v = c) :
    X.sum = c * X.length := by
  induction X with
  | nil => simp
  | cons a t ih =>
      have ha : a = c := h a (by simp)
      have ht : ∀ v ∈ t, v = c := fun v hv => h v (by simp [hv])
      simp [ha, ih ht, List.length_cons]
      ring

theorem foldl_min_self (a : ℚ) : ∀ n, (List.replicate n a).foldl min a = a := by
  intro n
  induction n with
  | zero => simp
  | succ m ih => simp [List.replicate_succ, ih]

theorem foldl_max_self (a : ℚ) : ∀ n, (List.replicate n a).foldl max a = a := by
  intro n
  induction n with
  | zero => simp
  | succ m ih => simp [List.replicate_succ, ih]

theorem stdzd_of_constant (X : List ℚ) (std c : ℚ) (h : ∀ v ∈ X, v = c) :
    stdzd X std = List.replicate X.length 0 := by
  cases X with
  | nil => simp [stdzd]
  | cons a t =>
      have hsum : (a :: t).sum = c * (a :: t).length :=
        sum_of_constant _ c h
      have hlen : ((a :: t).length : ℚ) ≠ 0 := by
        simp only [List.length_cons]
        positivity
      have hmean : (a :: t).sum / ((a :: t).length : ℚ) = c := by
        rw [hsum]
        field_simp
      rw [List.eq_replicate_iff]
      refine ⟨by simp [stdzd], fun b hb => ?_⟩
      simp only [stdzd, List.map_map, List.mem_map, Function.comp] at hb
      obtain ⟨v, hv, hbv⟩ := hb
      rw [hmean, h v hv] at hbv
      simp at hbv
      exact hbv.symm

theorem listMin_replicate_zero (n : ℕ) :
    listMin (List.replicate n (0 : ℚ)) = 0 := by
  cases n with
  | zero => simp [listMin]
  | succ m =>
      simp only [List.replicate_succ, listMin]
      exact foldl_min_self 0 m

theorem listMax_replicate_zero (n : ℕ) :
    listMax (List.replicate n (0 : ℚ)) = 0 := by
  cases n with
  | zero => simp [listMax]
  | succ m =>
      simp only [List.replicate_succ, listMax]
      exact foldl_max_self 0 m

/-- C4: the divisor `std + eps` of the standardization step is strictly
positive (no NaN/inf can arise from it), and whenever the post-standardization
dynamic range collapses (`norm_max - norm_min ≤ 1e-6`) — in particular for any
constant-valued input — the output of `normalize_melspec` is the all-zero
array of the input's shape.  (The only other division, by
`norm_max - norm_min`, is taken exactly when that quantity exceeds `1e-6`, so
it too is division by a positive number.) -/
theorem c4_normalize_melspec_degenerate (X : List ℚ) (std : ℚ)
    (hstd : 0 ≤ std) :
    (0 : ℚ) < std + 1/1000000 ∧
    (listMax (stdzd X std) - listMin (stdzd X std) ≤ 1/1000000 →
      normalize_melspec X std = List.replicate X.length 0) ∧
    (∀ c, (∀ v ∈ X, v = c) →
      normalize_melspec X std = List.replicate X.length 0) := by
  have hlen : (stdzd X std).length = X.length := by simp [stdzd]
  refine ⟨by positivity, ?_, ?_⟩
  · intro hcollapse
    rw [normalize_melspec, if_neg (not_lt.mpr hcollapse), ← hlen]
    exact map_zero_eq_replicate _
  · intro c hc
    have hz := stdzd_of_constant X std c hc
    rw [normalize_melspec, hz, listMin_replicate_zero, listMax_replicate_zero]
    rw [if_neg (by norm_num)]
    have hmap := map_zero_eq_replicate (List.replicate X.length (0 : ℚ))
    rw [List.length_replicate] at hmap
    exact hmap

/-- Witness for C4: the constant spectrogram `[5, 5, 5]` with `std = 0`
normalizes to the all-zero array. -/
theorem c4_normalize_melspec_degenerate_witness :
    normalize_melspec [5, 5, 5] 0 = List.replicate 3 0 := by
  have h := (c4_normalize_melspec_degenerate [5, 5, 5] 0 (by norm_num)).2.2
    5 (by intro v hv; simpa using hv)
  simpa using h

/-! ## Window sampling in random mode (C5)

`WaveformMixupDataset.__getitem__` lines 76–82: the short-event branch draws
`offset` from `np.arange(max(t_max - duration, 0), t_min, 0.1)`, the
long-event branch from
`np.arange(max(t_min - call_duration/2, 0), t_min + call_duration/2, 0.1)`,
and both clamp with `offset = min(CLIP_DURATION - duration, offset)`. -/

/-- `x ∈ np.arange(lo, hi, 0.1)`: `x = lo + k/10` for some `k : ℕ`, `x < hi`. -/
def inArange (lo hi x : ℚ) : Prop := ∃ k : ℕ, x = lo + k/10 ∧ x < hi

/-- Short-event branch lower bound `max(t_max - duration, 0)`. -/
def shortLo (t_max duration : ℚ) : ℚ := max (t_max - duration) 0

/-- Long-event branch lower bound `max(t_min - call_duration/2, 0)`. -/
def longLo (t_min t_max : ℚ) : ℚ := max (t_min - (t_max - t_min)/2) 0

/-- The clamp `offset = min(CLIP_DURATION - duration, offset)`. -/
def clampOffset (clip_duration duration x : ℚ) : ℚ :=
  min (clip_duration - duration) x

/-- C5: in random mode, any offset drawn from either branch's (non-empty)
`arange` interval and then clamped satisfies
`0 ≤ offset ≤ clip_duration - duration`, provided
`duration ≤ clip_duration`. -/
theorem c5_random_offset_bounds (t_min t_max duration clip_duration x : ℚ)
    (hdur : duration ≤ clip_duration)
    (hx : inArange (shortLo t_max duration) t_min x ∨
      inArange (longLo t_min t_max) (t_min + (t_max - t_min)/2) x) :
    0 ≤ clampOffset clip_duration duration x ∧
    clampOffset clip_duration duration x ≤ clip_duration - duration := by
  have hx0 : 0 ≤ x := by
    rcases hx with ⟨k, hk, _⟩ | ⟨k, hk, _⟩
    · have hlo : (0 : ℚ) ≤ shortLo t_max duration := le_max_right _ _
      have hk0 : (0 : ℚ) ≤ (k : ℚ)/10 := by positivity
      rw [hk]
      linarith
    · have hlo : (0 : ℚ) ≤ longLo t_min t_max := le_max_right _ _
      have hk0 : (0 : ℚ) ≤ (k : ℚ)/10 := by positivity
      rw [hk]
      linarith
  exact ⟨le_min (by linarith) hx0, min_le_left _ _⟩

/-- Witness for C5: event `[2, 3]` s, `duration = 10`, `clip_duration = 60`,
sampled `x = 0` from the short branch. -/
theorem c5_random_offset_bounds_witness :
    0 ≤ clampOffset 60 10 0 ∧ clampOffset 60 10 0 ≤ 60 - 10 :=
  c5_random_offset_bounds 2 3 10 60 0 (by norm_num)
    (Or.inl ⟨0, by norm_num [shortLo], by norm_num⟩)

/-! ## Waveform-domain mixup labels (C6)

`WaveformMixupDataset.__getitem__` lines 154–184: zero vector, the primary
loop writes `lam` (when `float_label` and mixup are active) or `1.0` per
overlapping species, then under mixup the secondary loop writes `1 - lam`
(`float_label`) or `1.0` per species overlapping the mixup window. -/

def waveformMixupWeak (primSpecies mixSpecies : List ℕ) (lam : ℚ)
    (float_label use_mixup : Bool) : ℕ → ℚ :=
  let l1 := weakFill primSpecies
    (if float_label && use_mixup then lam else 1) (fun _ => 0)
  if use_mixup then
    weakFill mixSpecies (if float_label then 1 - lam else 1) l1
  else l1

/-- C6: under waveform mixup with float labels, a species overlapping only the
primary window gets weak value `lam`, a species overlapping the secondary
window gets `1 - lam`, and `lam + (1 - lam) = 1` exactly. -/
theorem c6_waveform_mixup_label_split (primSpecies mixSpecies : List ℕ)
    (lam : ℚ) (cp cs : ℕ)
    (hp : cp ∈ primSpecies) (hpn : cp ∉ mixSpecies)
    (hs : cs ∈ mixSpecies) (_hsn : cs ∉ primSpecies) :
    waveformMixupWeak primSpecies mixSpecies lam true true cp = lam ∧
    waveformMixupWeak primSpecies mixSpecies lam true true cs = 1 - lam ∧
    lam + (1 - lam) = 1 := by
  unfold waveformMixupWeak
  simp only [Bool.and_self, if_true]
  rw [weakFill_apply, weakFill_apply, weakFill_apply]
  refine ⟨?_, ?_, by ring⟩
  · rw [if_neg hpn, if_pos hp]
  · rw [if_pos hs]

/-- Witness for C6: primary species 2, secondary species 7, `lam = 1/4`. -/
theorem c6_waveform_mixup_label_split_witness :
    waveformMixupWeak [2] [7] (1/4) true true 2 = 1/4 ∧
    waveformMixupWeak [2] [7] (1/4) true true 7 = 1 - 1/4 ∧
    (1/4 : ℚ) + (1 - 1/4) = 1 :=
  c6_waveform_mixup_label_split [2] [7] (1/4) 2 7 (by simp) (by simp)
    (by simp) (by simp)

/-! ## Spectrogram-domain mixup labels (C7)

`LogmelMixupDataset.__getitem__` lines 346–383: the primary loop writes
`lam` when `float_label and use_mixup and not no_lambda` else `1.0`; the
secondary loop (under mixup) writes `1 - lam` when
`float_label and not no_lambda` else `1.0`.  Every write is an assignment
(`label[...] = v`, `strong_label[a:b, s] = v`), never an addition, so the
secondary loop overwrites cells already written by the primary loop. -/

def logmelPrimaryValue (lam : ℚ) (float_label use_mixup no_lambda : Bool) : ℚ :=
  if float_label && use_mixup && !no_lambda then lam else 1

def logmelSecondaryValue (lam : ℚ) (float_label no_lambda : Bool) : ℚ :=
  if float_label && !no_lambda then 1 - lam else 1

def logmelMixupWeak (primSpecies mixSpecies : List ℕ) (lam : ℚ)
    (float_label use_mixup no_lambda : Bool) : ℕ → ℚ :=
  let l1 := weakFill primSpecies
    (logmelPrimaryValue lam float_label use_mixup no_lambda) (fun _ => 0)
  if use_mixup then
    weakFill mixSpecies (logmelSecondaryValue lam float_label no_lambda) l1
  else l1

/-- The strong tensor of `LogmelMixupDataset` under mixup: the primary loop
writes against `offset`, then the secondary loop writes against
`mixup_offset`, into the same tensor. -/
def logmelMixupStrong (primEvs mixEvs : List Event) (offsetP offsetM spf : ℚ)
    (n : ℕ) (lam : ℚ) (float_label no_lambda : Bool) : ℕ → ℕ → ℚ :=
  strongFill mixEvs offsetM spf n
    (logmelSecondaryValue lam float_label no_lambda)
    (strongFill primEvs offsetP spf n
      (logmelPrimaryValue lam float_label true no_lambda) (fun _ _ => 0))

/-- The weak label as the claim's words state it: the two windows' label
assignments "written additively into the shared label tensors", a species
overlapping both windows accumulating the sum of both contributions. -/
def logmelMixupWeakAdditive (primSpecies mixSpecies : List ℕ) (lam : ℚ)
    (float_label use_mixup no_lambda : Bool) : ℕ → ℚ :=
  fun c =>
    (if c ∈ primSpecies then
      logmelPrimaryValue lam float_label use_mixup no_lambda else 0) +
    (if use_mixup ∧ c ∈ mixSpecies then
      logmelSecondaryValue lam float_label no_lambda else 0)

/-- C7 counterexample: species 0 overlaps both windows, `float_label`,
mixup active, `no_lambda = False`, `lam = 1/4`.  The code's assignment
semantics leaves `weak[0] = 1 - lam = 3/4`; the claimed additive semantics
would give `lam + (1 - lam) = 1`. -/
theorem c7_additive_counterexample :
    logmelMixupWeak [0] [0] (1/4) true true false 0 = 3/4 ∧
    logmelMixupWeakAdditive [0] [0] (1/4) true true false 0 = 1 ∧
    (3/4 : ℚ) ≠ 1 := by
  refine ⟨?_, ?_, by norm_num⟩
  · rw [logmelMixupWeak]
    simp only [if_true]
    rw [weakFill_apply, if_pos (by simp)]
    rw [logmelSecondaryValue]
    norm_num
  · rw [logmelMixupWeakAdditive]
    simp only [List.mem_singleton, if_pos, logmelPrimaryValue,
      logmelSecondaryValue]
    norm_num

/-- C7 (amended): in `LogmelMixupDataset`, the overlapping-event queries and
label writes for the two windows run independently against each window's own
offset, but are written by assignment into the shared tensors: under mixup a
species overlapping the secondary window ends at the secondary value
(`1 - lam`, or `1.0` when float labels are off or `no_lambda` is set) even if
it also overlapped the primary window; a species overlapping only the primary
window keeps the primary value; an untouched class stays `0`; and a strong
cell written by the secondary loop (queried at the secondary offset) holds
the secondary value. -/
theorem c7_logmel_mixup_label_assignment (primSpecies mixSpecies : List ℕ)
    (primEvs mixEvs : List Event) (offsetP offsetM spf : ℚ) (n : ℕ)
    (lam : ℚ) (float_label no_lambda : Bool) (c f : ℕ) :
    (c ∈ mixSpecies →
      logmelMixupWeak primSpecies mixSpecies lam float_label true no_lambda c
        = logmelSecondaryValue lam float_label no_lambda) ∧
    (c ∈ primSpecies → c ∉ mixSpecies →
      logmelMixupWeak primSpecies mixSpecies lam float_label true no_lambda c
        = logmelPrimaryValue lam float_label true no_lambda) ∧
    (c ∉ primSpecies → c ∉ mixSpecies →
      logmelMixupWeak primSpecies mixSpecies lam float_label true no_lambda c
        = 0) ∧
    ((∃ e ∈ mixEvs, writesCell e offsetM spf n f c) →
      logmelMixupStrong primEvs mixEvs offsetP offsetM spf n lam
          float_label no_lambda f c
        = logmelSecondaryValue lam float_label no_lambda) := by
  refine ⟨?_, ?_, ?_, ?_⟩
  · intro hm
    rw [logmelMixupWeak]
    simp only [if_true]
    rw [weakFill_apply, if_pos hm]
  · intro hp hm
    rw [logmelMixupWeak]
    simp only [if_true]
    rw [weakFill_apply, if_neg hm, weakFill_apply, if_pos hp]
  · intro hp hm
    rw [logmelMixupWeak]
    simp only [if_true]
    rw [weakFill_apply, if_neg hm, weakFill_apply, if_neg hp]
  · intro hex
    rw [logmelMixupStrong, strongFill_apply, if_pos hex]

/-- Witness for C7 (amended): species 0 overlapping both windows ends at the
secondary value. -/
theorem c7_logmel_mixup_label_assignment_witness :
    logmelMixupWeak [0] [0] (1/4) true true false 0
      = logmelSecondaryValue (1/4) true false :=
  (c7_logmel_mixup_label_assignment [0] [0] [] [] 0 0 1 10 (1/4) true false
    0 0).1 (by simp)

/-! ## Sequential validation dataset (C8)

`SequentialValidationDataset` (src/datasets/sequential.py): `__len__` returns
`len(self.df) * (CLIP_DURATION // self.duration)` (line 57), while
`__getitem__` computes `idx = idx_ // n_chunk_per_clip`,
`segment_id = idx_ % n_chunk_per_clip`, reads `sample = self.tp.loc[idx]`
(line 64) — the event table, not the recording table — and sets
`offset = segment_id * self.duration` (line 67). -/

structure SeqDataset where
  /-- One recording id per row of `self.df`. -/
  df : List ℕ
  /-- The event table `self.tp` (row order preserved). -/
  tp : List Event

/-- `__len__`: `len(self.df) * n_chunk_per_clip`. -/
def seqLen (d : SeqDataset) (n_chunk : ℕ) : ℕ := d.df.length * n_chunk

/-- The recording whose audio `__getitem__` loads for dataset index `i`:
`self.tp.loc[i // n_chunk]["recording_id"]`. -/
def seqItemRecording (d : SeqDataset) (n_chunk : ℕ) (i : ℕ) : ℕ :=
  (d.tp.getD (i / n_chunk) ⟨0, 0, 0, 0⟩).recording_id

/-- `offset = segment_id * self.duration` with `segment_id = i % n_chunk`. -/
def seqItemOffset (duration : ℚ) (n_chunk : ℕ) (i : ℕ) : ℚ :=
  ((i % n_chunk : ℕ) : ℚ) * duration

/-- Failing input for C8: recordings `0` and `1`; `tp` holds two events of
recording `0` and one of recording `1`; `CLIP_DURATION // duration = 6`. -/
def seqBugExample : SeqDataset :=
  ⟨[0, 1], [⟨0, 5, 1, 2⟩, ⟨0, 6, 3, 4⟩, ⟨1, 7, 1, 2⟩]⟩

/-- C8: the dataset length is `2 * 6 = 12` as the claim states, but because
`__getitem__` indexes the event table `self.tp` (whose first two rows both
belong to recording 0) instead of the recording table `self.df`, none of the
12 dataset indices ever loads recording 1 even though it is in the dataset —
the enumeration is not exhaustive over recordings. -/
theorem c8_sequential_coverage_bug :
    seqLen seqBugExample 6 = 12 ∧
    (∀ i < 12, seqItemRecording seqBugExample 6 i ≠ 1) ∧
    1 ∈ seqBugExample.df := by
  refine ⟨rfl, ?_, by simp [seqBugExample]⟩
  decide

/-! ## Additional-label dataset attribute slot (C9)

`AdditionalLabellDataset.__init__` (src/datasets/additional_label.py lines
61–63) assigns `self.additional_labels` only inside
`if additional_label_path is not None:`; `__getitem__` (lines 130–133)
unconditionally evaluates `if self.additional_labels is not None:`.  In
Python, reading an attribute that was never assigned raises
`AttributeError`.  The attribute slot is modelled by an `Option`: `none`
means never assigned; when a path was given the slot always holds a loaded
table (never Python `None`), so the guard succeeds and the override runs. -/

inductive PyError where
  | attributeError
deriving DecidableEq

/-- An auxiliary weak-label row: `(filename, species)`. -/
structure AddRow where
  filename : ℕ
  species : ℕ
deriving DecidableEq

structure AdditionalLabellDataset where
  /-- The `self.additional_labels` attribute slot: `none` = never assigned. -/
  additional_labels : Option (List AddRow)
  additional_label_value : ℚ

/-- `__init__`: `if additional_label_path is not None:
self.additional_labels = pd.read_csv(additional_label_path)`. -/
def mkAdditionalLabellDataset (additional_label_path : Option ℕ)
    (read_csv : ℕ → List AddRow) (additional_label_value : ℚ) :
    AdditionalLabellDataset :=
  { additional_labels := additional_label_path.map read_csv
    additional_label_value := additional_label_value }

/-- Reading `self.additional_labels`: raises `AttributeError` when the
attribute was never assigned. -/
def readAdditionalLabels (d : AdditionalLabellDataset) :
    Except PyError (List AddRow) :=
  match d.additional_labels with
  | none => .error .attributeError
  | some t => .ok t

/-- The weak-label override step of `__getitem__`: read the attribute, filter
rows with `filename == flac_id`, and assign `label[species] =
additional_label_value` for each. -/
def applyAdditionalLabels (d : AdditionalLabellDataset) (flac : ℕ)
    (label : ℕ → ℚ) : Except PyError (ℕ → ℚ) :=
  match readAdditionalLabels d with
  | .error e => .error e
  | .ok rows => .ok
      ((rows.filter (fun r => r.filename == flac)).foldl
        (fun acc r => fun c =>
          if c = r.species then d.additional_label_value else acc c) label)

/-- C9: constructed with `additional_label_path = None`, every item fetch
hits the unassigned `self.additional_labels` attribute and raises
`AttributeError` — the auxiliary-label feature cannot be left
unconfigured. -/
theorem c9_unconfigured_additional_labels_raises (read_csv : ℕ → List AddRow)
    (v : ℚ) (flac : ℕ) (label : ℕ → ℚ) :
    applyAdditionalLabels (mkAdditionalLabellDataset none read_csv v) flac
      label = .error .attributeError := rfl

/-! ## Mixup partner redraw loop (C10)

`WaveformMixupDataset.__getitem__` lines 95–100:
`while True: mixup_sample = self.tp.sample(1)...;
if mixup_sample["index"] != index: break`.  The loop is observed through the
sequence of drawn `index` values: it returns the first draw different from
the primary example's `index`, and has not terminated when the (arbitrarily
long, finite) draw sequence is exhausted without such a draw. -/

def redrawLoop (index : ℤ) : List ℤ → Option ℤ
  | [] => none
  | d :: rest => if d ≠ index then some d else redrawLoop index rest

/-- C10: if every row of the event pool carries the primary example's `index`
value (e.g. a single-row pool), then no sequence of draws from the pool ever
satisfies the exit condition — the `while True` redraw never terminates; and
conversely, any terminating run exhibits a pool row whose `index` differs
from the primary's, so termination requires two rows with distinct `index`
values. -/
theorem c10_redraw_termination (pool : List ℤ) (index : ℤ) :
    ((∀ v ∈ pool, v = index) → ∀ draws : List ℤ,
      (∀ d ∈ draws, d ∈ pool) → redrawLoop index draws = none) ∧
    (∀ draws : List ℤ, (∀ d ∈ draws, d ∈ pool) →
      ∀ w, redrawLoop index draws = some w → w ∈ pool ∧ w ≠ index) := by
  constructor
  · intro hall draws
    induction draws with
    | nil => intro h'; rfl
    | cons d rest ih =>
        intro hd
        have hdi : d = index := hall d (hd d (by simp))
        rw [redrawLoop, if_neg (by simp [hdi])]
        exact ih (fun x hx => hd x (by simp [hx]))
  · intro draws
    induction draws with
    | nil => intro h' w hw; exact absurd hw (by simp [redrawLoop])
    | cons d rest ih =>
        intro hd w hw
        rw [redrawLoop] at hw
        by_cases hdi : d = index
        · rw [if_neg (by simp [hdi])] at hw
          exact ih (fun x hx => hd x (by simp [hx])) w hw
        · rw [if_pos hdi] at hw
          injection hw with hweq
          subst hweq
          exact ⟨hd d (by simp), hdi⟩

/-- Witness for C10: a single-row pool whose only `index` is 5; the draw
sequence `[5, 5, 5]` (every draw from the pool) does not exit. -/
theorem c10_redraw_termination_witness :
    redrawLoop 5 [5, 5, 5] = none :=
  (c10_redraw_termination [5] 5).1 (by simp) [5, 5, 5] (by simp)

/-- Witness for C8: dataset index 7 (second block, chunk 1) still loads
recording 0, not recording 1. -/
theorem c8_sequential_coverage_bug_witness :
    seqItemRecording seqBugExample 6 7 ≠ 1 :=
  c8_sequential_coverage_bug.2.1 7 (by decide)
